import Mathlib

/-!
# Verification of the `Home.tsx` data pipeline

Shallow embedding of the client-side data pipeline of `src/pages/Home.tsx`
(manifest resolution, SQL-literal quoting, defensive row decoding, topic and
visual-weight derivation), together with proofs of the specified properties.

JavaScript values that cross the DuckDB/JS boundary are modelled by an
explicit value type; JavaScript numbers are modelled as exact rationals
extended with the two infinities and NaN (IEEE-754 rounding and negative
zero are not modelled — no property below depends on either).
-/

/-- Model of a JavaScript number: a finite value (carried exactly as a
rational), one of the two infinities, or NaN. -/
inductive JsNum where
  | fin (q : ℚ)
  | posInf
  | negInf
  | nan
deriving DecidableEq, Repr

/-- Model of `Number.isFinite`. -/
def JsNum.isFinite : JsNum → Bool
  | .fin _ => true
  | _ => false

/-- Model of JavaScript subtraction on numbers. -/
def JsNum.sub : JsNum → JsNum → JsNum
  | .nan, _ => .nan
  | _, .nan => .nan
  | .posInf, .posInf => .nan
  | .posInf, _ => .posInf
  | .negInf, .negInf => .nan
  | .negInf, _ => .negInf
  | .fin _, .posInf => .negInf
  | .fin _, .negInf => .posInf
  | .fin a, .fin b => .fin (a - b)

/-- Model of JavaScript division on numbers (division by zero follows the
positive-zero convention; negative zero is not modelled). -/
def JsNum.div : JsNum → JsNum → JsNum
  | .nan, _ => .nan
  | _, .nan => .nan
  | .posInf, .posInf => .nan
  | .posInf, .negInf => .nan
  | .negInf, .posInf => .nan
  | .negInf, .negInf => .nan
  | .posInf, .fin b => if 0 ≤ b then .posInf else .negInf
  | .negInf, .fin b => if 0 ≤ b then .negInf else .posInf
  | .fin _, .posInf => .fin 0
  | .fin _, .negInf => .fin 0
  | .fin a, .fin b =>
    if b = 0 then (if a = 0 then .nan else if 0 < a then .posInf else .negInf)
    else .fin (a / b)

/-- Model of `Math.max` on two arguments: NaN contaminates, otherwise the
larger value. -/
def jsMax : JsNum → JsNum → JsNum
  | .nan, _ => .nan
  | _, .nan => .nan
  | .posInf, _ => .posInf
  | _, .posInf => .posInf
  | .negInf, b => b
  | a, .negInf => a
  | .fin a, .fin b => .fin (if a ≤ b then b else a)

/-- Model of a JavaScript value as returned in a DuckDB result row: a string,
a number, a bigint (DuckDB's wide 64-bit integers surface as bigints), `null`,
`undefined`, or some other object.  An object carries the results of its
primitive coercions: `toStr` is what `String(v)` would produce (`none` models
a `toString` that throws) and `toNum` is what `Number(v)` would produce
(`none` models a `valueOf` that throws). -/
inductive JsVal where
  | str (s : String)
  | num (n : JsNum)
  | bigintV (i : Int)
  | nullV
  | undef
  | obj (toStr : Option String) (toNum : Option JsNum)
deriving DecidableEq, Repr

/-- Loose equality with null (`v == null`): true exactly for `null` and
`undefined`. -/
def isNullish : JsVal → Bool
  | .nullV => true
  | .undef => true
  | _ => false

/-- Decimal rendering of a JavaScript number (the shortest-round-trip rule of
the real `Number` to-string conversion is not modelled; integral values print
exactly and no claim below inspects the rendering of a non-integral value). -/
def jsNumToString : JsNum → String
  | .nan => "NaN"
  | .posInf => "Infinity"
  | .negInf => "-Infinity"
  | .fin q => if q.den = 1 then toString q.num else toString q

/-- Embedding of `asString` (Home.tsx lines 21–29): pass strings through,
map `null`/`undefined` to the empty string, and otherwise attempt the
`String(v)` conversion, swallowing a thrown conversion into the empty
string. -/
def asString : JsVal → String
  | .str s => s
  | .num n => jsNumToString n
  | .bigintV i => toString i
  | .nullV => ""
  | .undef => ""
  | .obj ts _ => ts.getD ""

/-- Character-level whitespace test used by the string-to-number coercion. -/
def isJsSpace (c : Char) : Bool :=
  c = ' ' || c = '\t' || c = '\n' || c = '\r' || c.toNat = 11 || c.toNat = 12

/-- Split a character list at the first character satisfying `p`, returning
the part before and the part after that character. -/
def splitFirstBy (p : Char → Bool) : List Char → Option (List Char × List Char)
  | [] => none
  | c :: rest =>
    if p c then some ([], rest)
    else (splitFirstBy p rest).map (fun q => (c :: q.1, q.2))

/-- Split a character list at the first occurrence of `c`. -/
def splitFirst (c : Char) (l : List Char) : Option (List Char × List Char) :=
  splitFirstBy (fun x => x = c) l

/-- Value of a digit string read in base 10. -/
def digitsToNat (l : List Char) : Nat :=
  l.foldl (fun a c => a * 10 + (c.toNat - 48)) 0

/-- Parse an unsigned decimal numeric literal (digits, optional fraction,
optional exponent) into an exact rational. -/
def parseDecimal (l : List Char) : Option ℚ :=
  let me := match splitFirstBy (fun c => c = 'e' || c = 'E') l with
    | some (m, e) => (m, some e)
    | none => (l, none)
  let ipfp := match splitFirst '.' me.1 with
    | some (a, b) => (a, b)
    | none => (me.1, ([] : List Char))
  if !(ipfp.1.all Char.isDigit && ipfp.2.all Char.isDigit) then none
  else if ipfp.1 = [] && ipfp.2 = [] then none
  else
    let base : ℚ := (digitsToNat ipfp.1 : ℚ) + (digitsToNat ipfp.2 : ℚ) / ((10 : ℚ) ^ ipfp.2.length)
    match me.2 with
    | none => some base
    | some e =>
      let se := match e with
        | '+' :: r => (false, r)
        | '-' :: r => (true, r)
        | r => (false, r)
      if se.2 = [] || !se.2.all Char.isDigit then none
      else some (base * (10 : ℚ) ^ (if se.1 then -(digitsToNat se.2 : ℤ) else (digitsToNat se.2 : ℤ)))

/-- Clamp a finite rational into the double range: magnitudes at or above
2^1024 overflow to the corresponding infinity. -/
def clampJsNum (q : ℚ) : JsNum :=
  if (2 : ℚ) ^ 1024 ≤ q then .posInf
  else if q ≤ -((2 : ℚ) ^ 1024) then .negInf
  else .fin q

/-- Model of the JavaScript string-to-number coercion on decimal forms:
surrounding whitespace is trimmed, the empty remainder is 0, the `Infinity`
spellings and signed decimal literals are recognised, anything else is NaN.
Hex, octal and binary literal forms and IEEE-754 rounding are not modelled
(no claim depends on them). -/
def stringToNum (s : String) : JsNum :=
  let l := ((s.data.dropWhile isJsSpace).reverse.dropWhile isJsSpace).reverse
  if l = [] then .fin 0
  else
    let sl := match l with
      | '+' :: r => (false, r)
      | '-' :: r => (true, r)
      | r => (false, r)
    if sl.2 = "Infinity".data then (if sl.1 then .negInf else .posInf)
    else
      match parseDecimal sl.2 with
      | some q => clampJsNum (if sl.1 then -q else q)
      | none => .nan

/-- Model of `Number(bigint)`: exact below 2^53; above, IEEE-754 rounding is
not modelled (the exact value is kept), and magnitudes at or above 2^1024
overflow to infinity. -/
def numberOfBigInt (i : Int) : JsNum :=
  if i.natAbs < 2 ^ 1024 then .fin (i : ℚ)
  else if i < 0 then .negInf
  else .posInf

/-- Model of the JavaScript `Number(v)` coercion on the modelled values
(`Except.error` models a thrown coercion). -/
def jsToNumber : JsVal → Except String JsNum
  | .str s => .ok (stringToNum s)
  | .num n => .ok n
  | .bigintV i => .ok (numberOfBigInt i)
  | .nullV => .ok (.fin 0)
  | .undef => .ok .nan
  | .obj _ tn =>
    match tn with
    | some n => .ok n
    | none => .error "TypeError: number coercion threw"

/-- Embedding of the `msNum` computation of the decoder (Home.tsx lines
122–130): a native number passes through, a bigint is converted with
`Number`, `null`/`undefined` yield `null`, and any other value is coerced
with `Number` and kept only when finite. -/
def msNumOf (v : JsVal) : Except String (Option JsNum) :=
  match v with
  | .num n => .ok (some n)
  | .bigintV i => .ok (some (numberOfBigInt i))
  | _ =>
    if isNullish v then .ok none
    else (jsToNumber v).map (fun n => if n.isFinite then some n else none)

/-- Truncation of a rational toward zero, as JavaScript's ToInteger does. -/
def ratTrunc (q : ℚ) : Int := q.num.tdiv (q.den : Int)

/-- Model of `new Date(ms)` from a numeric time value: valid exactly when the
value is finite with magnitude at most 8.64e15 (the ECMAScript TimeClip
bound), in which case the time value is the truncation to an integer;
`none` models an Invalid Date. -/
def jsNewDate : JsNum → Option Int
  | .fin q =>
    if -(8640000000000000 : ℚ) ≤ q ∧ q ≤ (8640000000000000 : ℚ) then some (ratTrunc q)
    else none
  | _ => none

/-- Model of `Date.prototype.getTime`: the time value, or NaN on an Invalid
Date. -/
def jsGetTime : Option Int → JsNum
  | some t => .fin t
  | none => .nan

/-- Left-pad the decimal rendering of `n` with zeros to width `w`. -/
def zeroPad (w : Nat) (n : Nat) : String :=
  let s := toString n
  String.mk (List.replicate (w - s.length) '0') ++ s

/-- Proleptic-Gregorian civil date (year, month, day) of a day count relative
to 1970-01-01. -/
def civilFromDays (z : Int) : Int × Nat × Nat :=
  let zs := z + 719468
  let era : Int := zs.fdiv 146097
  let doe : Nat := (zs.fmod 146097).toNat
  let yoe : Nat := (doe - doe / 1460 + doe / 36524 - doe / 146096) / 365
  let y : Int := (yoe : Int) + era * 400
  let doy : Nat := doe - (365 * yoe + yoe / 4 - yoe / 100)
  let mp : Nat := (5 * doy + 2) / 153
  let d : Nat := doy - (153 * mp + 2) / 5 + 1
  let m : Nat := if mp < 10 then mp + 3 else mp - 9
  (if m ≤ 2 then y + 1 else y, m, d)

/-- Model of `Date.prototype.toISOString` on a valid time value (epoch
milliseconds): UTC calendar fields in ISO-8601 layout; years outside
0000–9999 use the expanded six-digit form. -/
def toISOStringFn (t : Int) : String :=
  let days := t.fdiv 86400000
  let msod := (t.fmod 86400000).toNat
  let ymd := civilFromDays days
  let year := ymd.1
  let yearStr :=
    if 0 ≤ year ∧ year ≤ 9999 then zeroPad 4 year.toNat
    else if year < 0 then "-" ++ zeroPad 6 (-year).toNat
    else "+" ++ zeroPad 6 year.toNat
  yearStr ++ "-" ++ zeroPad 2 ymd.2.1 ++ "-" ++ zeroPad 2 ymd.2.2 ++
    "T" ++ zeroPad 2 (msod / 3600000) ++ ":" ++ zeroPad 2 (msod % 3600000 / 60000) ++
    ":" ++ zeroPad 2 (msod % 60000 / 1000) ++ "." ++ zeroPad 3 (msod % 1000) ++ "Z"

/-- ASCII model of `String.prototype.toLowerCase` (the titles and keywords
involved are ASCII). -/
def jsToLowerCase (s : String) : String := String.mk (s.data.map Char.toLower)

/-- Containment of the segment `pat` in `l` (model of
`String.prototype.includes` at the character-list level). -/
def containsSeg (l : List Char) (pat : List Char) : Bool :=
  match l with
  | [] => pat.isEmpty
  | _ :: rest => pat.isPrefixOf l || containsSeg rest pat

/-- Model of `s.includes(pat)`. -/
def strIncludes (s pat : String) : Bool := containsSeg s.data pat.data

/-- Embedding of `guessTopic` (Home.tsx lines 32–41): lower-case the title
and return the label of the first matching keyword group, `"other"` when no
keyword matches. -/
def guessTopic (title : String) : String :=
  let t := jsToLowerCase title
  if strIncludes t "policy" || strIncludes t "regulat" then "policy"
  else if strIncludes t "agent" then "agents"
  else if strIncludes t "robot" then "robotics"
  else if strIncludes t "safety" || strIncludes t "alignment" then "safety"
  else if strIncludes t "chip" || strIncludes t "nvidia" then "chips"
  else if strIncludes t "openai" || strIncludes t "anthropic" || strIncludes t "deepmind" then "frontier"
  else "other"

/-- Raw result row as destructured by the decoder:
`[id, url, title, published_ms, domain, language]`. -/
structure RawRow where
  id : JsVal
  url : JsVal
  title : JsVal
  published_ms : JsVal
  domain : JsVal
  language : JsVal
deriving DecidableEq, Repr

/-- Derived graph node (the `NewsNode` shape of `components/NewsGraph.tsx`).
The `val` field keeps the JavaScript number model since it is the result of
numeric arithmetic. -/
structure NewsNode where
  id : String
  url : String
  title : Option String
  published_at : Option String
  domain : Option String
  language : Option String
  topic : String
  val : JsNum
deriving DecidableEq, Repr

/-- Embedding of the row-decoding and node-derivation map (Home.tsx lines
114–146).  `Except.error` models an exception escaping the mapped arrow:
either a throwing `Number` coercion of the timestamp column, or the
`RangeError` of `toISOString` on an Invalid Date (an unrepresentable time
value). -/
def decodeRow (now : JsNum) (r : RawRow) : Except String NewsNode :=
  let idStr := asString r.id
  let urlStr := asString r.url
  let titleStr := asString r.title
  let domainStr := if isNullish r.domain then none else some (asString r.domain)
  let langStr := if isNullish r.language then none else some (asString r.language)
  match msNumOf r.published_ms with
  | .error e => .error e
  | .ok msNum =>
    let date : Option (Option Int) := msNum.map jsNewDate
    let ageHours : JsNum :=
      match date with
      | some d => JsNum.div (JsNum.sub now (jsGetTime d)) (JsNum.fin 3600000)
      | none => JsNum.fin 999
    let val := jsMax (JsNum.fin 1) (JsNum.sub (JsNum.fin 10) (JsNum.div ageHours (JsNum.fin 6)))
    match date with
    | some none => .error "RangeError: toISOString called on an Invalid Date"
    | some (some t) =>
      .ok { id := idStr, url := urlStr,
            title := if titleStr = "" then none else some titleStr,
            published_at := some (toISOStringFn t),
            domain := domainStr, language := langStr,
            topic := guessTopic titleStr, val := val }
    | none =>
      .ok { id := idStr, url := urlStr,
            title := if titleStr = "" then none else some titleStr,
            published_at := none,
            domain := domainStr, language := langStr,
            topic := guessTopic titleStr, val := val }

instance {ε α : Type} [DecidableEq ε] [DecidableEq α] : DecidableEq (Except ε α) :=
  fun a b =>
    match a, b with
    | .ok x, .ok y =>
      if h : x = y then .isTrue (by rw [h]) else .isFalse (by simp [h])
    | .error x, .error y =>
      if h : x = y then .isTrue (by rw [h]) else .isFalse (by simp [h])
    | .ok _, .error _ => .isFalse (by simp)
    | .error _, .ok _ => .isFalse (by simp)

example : decodeRow (JsNum.fin 0) ⟨.nullV, .nullV, .nullV, .nullV, .nullV, .nullV⟩ =
    .ok { id := "", url := "", title := none, published_at := none,
          domain := none, language := none, topic := "other", val := JsNum.fin 1 } := by
  norm_num [decodeRow, msNumOf, isNullish, asString, jsMax, JsNum.sub, JsNum.div, guessTopic,
    jsToLowerCase, strIncludes, containsSeg]

example : guessTopic "New AI Safety Regulation Proposed" = "policy" := by decide

example : toISOStringFn 0 = "1970-01-01T00:00:00.000Z" := by decide

/-- Model of `s.startsWith(pre)` at the character-list level. -/
def strStartsWith (s pre : String) : Bool := pre.data.isPrefixOf s.data

/-- Model of the case-insensitive test of the regular expression
`^https?:\/\//i` (Home.tsx line 13). -/
def isHttpAbsolute (u : String) : Bool :=
  "http://".data.isPrefixOf (u.data.map Char.toLower) ||
  "https://".data.isPrefixOf (u.data.map Char.toLower)

/-- Characters allowed in a URL scheme after the first one. -/
def isSchemeChar (c : Char) : Bool :=
  c.isAlpha || ('0' ≤ c && c ≤ '9') || c = '+' || c = '-' || c = '.'

/-- Well-formedness of a URL scheme: non-empty, a letter first, scheme
characters after. -/
def validSchemeChars : List Char → Bool
  | [] => false
  | c :: rest => c.isAlpha && rest.all isSchemeChar

/-- Whether a string begins with a URL scheme followed by a colon, which is
what makes the URL constructor treat it as an absolute reference. -/
def hasUrlScheme (u : String) : Bool :=
  match splitFirst ':' u.data with
  | some (sch, _) => validSchemeChars sch
  | none => false

/-- Decompose an absolute hierarchical URL string into scheme, authority and
path (query and fragment, when present, stay inside the path component —
no claim distinguishes them). -/
def parseBase (s : String) : Option (List Char × List Char × List Char) :=
  match splitFirst ':' s.data with
  | none => none
  | some (sch, rest) =>
    if validSchemeChars sch then
      match rest with
      | '/' :: '/' :: rest2 =>
        match splitFirst '/' rest2 with
        | some (auth, p) => some (sch, auth, '/' :: p)
        | none => some (sch, rest2, ['/'])
      | _ => none
    else none

/-- Keep the base path up to and including its last slash (the merge step of
relative resolution). -/
def dropLastSeg (path : List Char) : List Char :=
  (path.reverse.dropWhile (fun c => !(c = '/'))).reverse

/-- Model of the browser URL constructor `new URL(u, base)` restricted to
hierarchical references, as used on line 16–17 of Home.tsx.  An absolute
input is returned as is, a protocol-relative input takes the base scheme, a
root-relative input replaces the base path, and any other input is merged
onto the base path.  Dot-segment normalization, percent-encoding, case
normalization of scheme and host, and host validation (where the real
constructor throws) are not modelled — no claim depends on them; an
unparseable base returns the input unchanged. -/
def newURL (u base : String) : String :=
  if hasUrlScheme u then u
  else
    match parseBase base with
    | none => u
    | some (sch, auth, path) =>
      if strStartsWith u "//" then String.mk (sch ++ (':' :: u.data))
      else if strStartsWith u "/" then String.mk (sch ++ "://".data ++ auth ++ u.data)
      else if u = "" then String.mk (sch ++ "://".data ++ auth ++ path)
      else String.mk (sch ++ "://".data ++ auth ++ dropLastSeg path ++ u.data)

/-- Embedding of `resolveFileUrl` (Home.tsx lines 11–18).  The ambient
`window.location.origin` and `import.meta.env.BASE_URL` are passed
explicitly. -/
def resolveFileUrl (origin baseUrl : String) (u : String) : String :=
  if u = "" then u
  else if isHttpAbsolute u then u
  else if strStartsWith u "/" then origin ++ u
  else newURL u (newURL baseUrl origin)

example :
    resolveFileUrl "https://example.github.io" "/app/" "data/a.parquet" =
      "https://example.github.io/app/data/a.parquet" := by decide

example :
    resolveFileUrl "http://localhost:5173" "/" "/parquet/x.parquet" =
      "http://localhost:5173/parquet/x.parquet" := by decide

/-- Double every single-quote character (the global replace of
`u.replace(/'/g, "''")` on Home.tsx line 80). -/
def escQuotes : List Char → List Char
  | [] => []
  | c :: rest => if c = '\'' then '\'' :: '\'' :: escQuotes rest else c :: escQuotes rest

/-- Embedding of the quoting arrow of line 80: surround the escaped location
with single quotes. -/
def sqlQuote (u : String) : String :=
  String.mk ('\'' :: (escQuotes u.data ++ ['\'']))

/-- Embedding of `urlLiterals` (line 80): quote each resolved location and
join with commas. -/
def urlLiterals (files : List String) : String :=
  String.intercalate "," (files.map sqlQuote)

/-- Scanner for the body of a quoted SQL string literal: consumes characters
until the closing quote, accepting quote characters only in doubled pairs,
and returns the decoded content.  `none` means the text is not one
well-formed literal. -/
def sqlLitBody : List Char → Option (List Char)
  | [] => none
  | [c] => if c = '\'' then some [] else none
  | c :: d :: rest =>
    if c = '\'' then
      if d = '\'' then (sqlLitBody rest).map (fun l => '\'' :: l)
      else none
    else (sqlLitBody (d :: rest)).map (fun l => c :: l)

/-- Parse one whole well-formed quoted SQL string literal, returning its
decoded content. -/
def parseSqlLit : List Char → Option (List Char)
  | '\'' :: rest => sqlLitBody rest
  | _ => none

example : parseSqlLit (sqlQuote "it's").data = some "it's".data := by decide

/-- JSON documents as returned by `resp.json()`. -/
inductive Json where
  | null
  | bool (b : Bool)
  | num (q : ℚ)
  | str (s : String)
  | arr (xs : List Json)
  | obj (fields : List (String × Json))

/-- First binding of a key in a parsed-object field list (`JSON.parse` has
already collapsed duplicate keys, so the fields are unique). -/
def lookupField : List (String × Json) → String → Option Json
  | [], _ => none
  | f :: rest, k => if f.1 = k then some f.2 else lookupField rest k

/-- Model of the member access `j.k` on a parsed JSON document: access on the
null document throws a TypeError, an object looks the key up, and every other
document yields `undefined` (`none`). -/
def jsonMember (j : Json) (k : String) : Except String (Option Json) :=
  match j with
  | .null => .error "TypeError: cannot read properties of null"
  | .obj fields => .ok (lookupField fields k)
  | _ => .ok none

/-- Embedding of the raw file-list extraction (Home.tsx line 67):
`Array.isArray(manifest.files) ? manifest.files : []`. -/
def rawFilesOf (manifest : Json) : Except String (List Json) :=
  match jsonMember manifest "files" with
  | .error e => .error e
  | .ok (some (.arr xs)) => .ok xs
  | .ok _ => .ok []

/-- The observable part of the manifest HTTP response: the success flag, the
declared content type header (`none` when the header is absent), and the
parsed body (`none` when the body is not valid JSON, in which case
`resp.json()` throws). -/
structure HttpResponse where
  ok : Bool
  contentType : Option String
  body : Option Json

/-- Whether an `Except` is an error. -/
def isErr {ε α : Type} : Except ε α → Bool
  | .error _ => true
  | .ok _ => false

/-- Embedding of the manifest fetch validation and parse (Home.tsx lines
55–66): reject when the response is not ok or the content type does not
include `application/json`; otherwise parse the body, a parse failure being
the thrown `SyntaxError` of `resp.json()`. -/
def manifestStage (resp : HttpResponse) : Except String Json :=
  let ct := resp.contentType.getD ""
  if !resp.ok || !strIncludes ct "application/json" then
    .error "Manifest is not JSON"
  else
    match resp.body with
    | some j => .ok j
    | none => .error "SyntaxError: response body is not valid JSON"

/-- Per-entry behaviour of `rawFiles.map(resolveFileUrl)` when the manifest
`files` array may hold non-strings (the TypeScript annotation is not
checked at runtime): a string is resolved; a falsy non-string is returned by
the first guard of `resolveFileUrl` unchanged; a truthy non-string reaches
`u.startsWith` and throws a TypeError. -/
def resolveEntry (origin baseUrl : String) : Json → Except String Json
  | .str s => .ok (.str (resolveFileUrl origin baseUrl s))
  | .null => .ok .null
  | .bool b => if b then .error "TypeError: u.startsWith is not a function" else .ok (.bool false)
  | .num q => if q = 0 then .ok (.num 0) else .error "TypeError: u.startsWith is not a function"
  | _ => .error "TypeError: u.startsWith is not a function"

/-- Outcome model of the engine calls: `bootstrap` is the `getDuckConn`
outcome and `queryRows` folds the outcomes of the session setup, the view
creation and the projection query into the returned raw rows. -/
structure EngineModel where
  bootstrap : Except String Unit
  queryRows : Except String (List RawRow)

/-- Embedding of the pipeline run of the `Home` effect (Home.tsx lines
48–155) from the manifest response onward.  The second component records
whether the engine was invoked at all (any of bootstrap, view registration
or query).  A thrown error anywhere surfaces as `Except.error`, matching the
surrounding try/catch that converts it into the errored presentation
state. -/
def pipelineRun (origin baseUrl : String) (resp : HttpResponse) (eng : EngineModel)
    (now : JsNum) : Except String (List NewsNode) × Bool :=
  match manifestStage resp with
  | .error e => (.error e, false)
  | .ok manifest =>
    match rawFilesOf manifest with
    | .error e => (.error e, false)
    | .ok rawFiles =>
      match rawFiles.mapM (resolveEntry origin baseUrl) with
      | .error e => (.error e, false)
      | .ok files =>
        if files.length = 0 then (.ok [], false)
        else
          match eng.bootstrap with
          | .error e => (.error e, true)
          | .ok _ =>
            match eng.queryRows with
            | .error e => (.error e, true)
            | .ok rows =>
              match rows.mapM (decodeRow now) with
              | .error e => (.error e, true)
              | .ok nodes => (.ok nodes, true)

/-- Keyword groups of the topic heuristic in the fixed priority order stated
by the specification: policy/regulation, agents, robotics, safety/alignment,
chips/hardware-vendor, frontier-lab. -/
def topicGroups : List (List String × String) :=
  [ (["policy", "regulat"], "policy"),
    (["agent"], "agents"),
    (["robot"], "robotics"),
    (["safety", "alignment"], "safety"),
    (["chip", "nvidia"], "chips"),
    (["openai", "anthropic", "deepmind"], "frontier") ]

/-- Label of the first group in `groups` one of whose keywords occurs in the
lowered title `t`; `"other"` when no group matches. -/
def firstMatch (t : String) : List (List String × String) → String
  | [] => "other"
  | g :: rest => if g.1.any (fun k => strIncludes t k) then g.2 else firstMatch t rest

/-- Topic classification as worded by the specification: a case-insensitive
keyword match against the title, evaluated in the fixed priority order of
`topicGroups`, first matching group wins, no match yields `"other"`. -/
def guessTopicSpec (title : String) : String :=
  firstMatch (jsToLowerCase title) topicGroups

/-- Age in hours as worded by the specification: the difference between the
reference instant and the publication instant in hours, `999` for a record
with no publication instant. -/
def ageHoursSpec (now : JsNum) (pub : Option Int) : JsNum :=
  match pub with
  | some p => JsNum.div (JsNum.sub now (JsNum.fin p)) (JsNum.fin 3600000)
  | none => JsNum.fin 999

/-- Visual weight as worded by the specification:
`val = max(1, 10 - ageHours / 6)`. -/
def valSpec (now : JsNum) (pub : Option Int) : JsNum :=
  jsMax (JsNum.fin 1) (JsNum.sub (JsNum.fin 10) (JsNum.div (ageHoursSpec now pub) (JsNum.fin 6)))

/-- Concrete row used by the C1 witness: null id, undefined url, a wide
integer timestamp. -/
def wrowC1 : RawRow :=
  ⟨.nullV, .undef, .str "Chip supply update", .bigintV 1700000000000, .nullV, .str "en"⟩

/-- Concrete row used by the C2 witness. -/
def wrowC2 : RawRow :=
  ⟨.str "a", .str "https://x/y", .str "hello", .nullV, .nullV, .nullV⟩

/-- Decoded node of `wrowC2` at reference instant 0. -/
def wnodeC2 : NewsNode :=
  { id := "a", url := "https://x/y", title := some "hello", published_at := none,
    domain := none, language := none, topic := "other", val := JsNum.fin 1 }

/-- Concrete row used by the C3 witness: publication instant 0. -/
def wrowC3 : RawRow :=
  ⟨.nullV, .nullV, .nullV, .num (JsNum.fin 0), .nullV, .nullV⟩

/-- Decoded node of `wrowC3` at reference instant 0. -/
def wnodeC3 : NewsNode :=
  { id := "", url := "", title := none, published_at := some (toISOStringFn 0),
    domain := none, language := none, topic := "other", val := JsNum.fin 10 }

/-! ## Shared lemmas -/

theorem splitFirstBy_append (p : Char → Bool) (l1 l2 : List Char) (c : Char)
    (h1 : ∀ x ∈ l1, p x = false) (hc : p c = true) :
    splitFirstBy p (l1 ++ c :: l2) = some (l1, l2) := by
  induction l1 with
  | nil => simp [splitFirstBy, hc]
  | cons a t ih =>
    have ha : p a = false := h1 a (by simp)
    have iht := ih (fun x hx => h1 x (by simp [hx]))
    simp [splitFirstBy, ha, iht]

theorem splitFirstBy_none (p : Char → Bool) (l : List Char)
    (h : ∀ x ∈ l, p x = false) : splitFirstBy p l = none := by
  induction l with
  | nil => rfl
  | cons a t ih =>
    simp [splitFirstBy, h a (by simp), ih (fun x hx => h x (by simp [hx]))]

theorem splitFirstBy_eq_some (p : Char → Bool) :
    ∀ (l a b : List Char), splitFirstBy p l = some (a, b) →
      (∀ x ∈ a, p x = false) ∧ ∃ c, p c = true ∧ l = a ++ c :: b := by
  intro l
  induction l with
  | nil => intro a b h; simp [splitFirstBy] at h
  | cons x t ih =>
    intro a b h
    by_cases hx : p x = true
    · simp [splitFirstBy, hx] at h
      obtain ⟨ha, hb⟩ := h
      subst ha; subst hb
      exact ⟨by simp, x, hx, rfl⟩
    · have hxf : p x = false := by
        cases hpx : p x with
        | true => exact absurd hpx hx
        | false => rfl
      simp only [splitFirstBy, if_neg hx, Option.map_eq_some'] at h
      obtain ⟨⟨q1, q2⟩, hq, hpair⟩ := h
      have hqa : x :: q1 = a := by simpa using congrArg Prod.fst hpair
      have hqb : q2 = b := by simpa using congrArg Prod.snd hpair
      obtain ⟨ihall, c, hcp, hct⟩ := ih q1 q2 hq
      refine ⟨?_, c, hcp, ?_⟩
      · intro y hy
        rw [← hqa] at hy
        rcases List.mem_cons.mp hy with h1 | h2
        · rw [h1]; exact hxf
        · exact ihall y h2
      · rw [← hqa, ← hqb, hct]; rfl

/-! ## C9: query-text quoting -/

theorem sqlLitBody_escQuotes (l : List Char) :
    sqlLitBody (escQuotes l ++ ['\'']) = some l := by
  induction l with
  | nil => simp [escQuotes, sqlLitBody]
  | cons c rest ih =>
    by_cases hc : c = '\''
    · subst hc
      simp [escQuotes, sqlLitBody, ih]
    · rcases h : escQuotes rest ++ ['\''] with _ | ⟨d, t⟩
      · exact absurd h (by simp)
      · have h1 : sqlLitBody (escQuotes (c :: rest) ++ ['\'']) = sqlLitBody (c :: d :: t) := by
          simp [escQuotes, hc, h]
        have h2 : sqlLitBody (c :: d :: t) = (sqlLitBody (d :: t)).map (fun l => c :: l) := by
          simp [sqlLitBody, hc]
        rw [h1, h2, ← h, ih]
        rfl

/-- C9: every single quote in a resolved file location is doubled before
interpolation, so the interpolated text is one well-formed quoted SQL string
literal whose decoded content is exactly the original location, for every
location string. -/
theorem C9_sql_quote_wellformed (u : String) :
    parseSqlLit (sqlQuote u).data = some u.data := by
  show parseSqlLit ('\'' :: (escQuotes u.data ++ ['\''])) = some u.data
  rw [parseSqlLit, sqlLitBody_escQuotes]

/-! ## C4: topic classification -/

/-- C4: topic classification is the case-insensitive keyword match evaluated
in the fixed priority order policy/regulation, agents, robotics,
safety/alignment, chips, frontier labs, with first match winning and no
match (including the empty title an absent title decodes to) yielding
`"other"`; in particular `"New AI Safety Regulation Proposed"` classifies as
`"policy"`. -/
theorem C4_topic_classification :
    (∀ t, guessTopic t = guessTopicSpec t) ∧
    guessTopic "New AI Safety Regulation Proposed" = "policy" ∧
    guessTopic "" = "other" := by
  refine ⟨?_, by decide, by decide⟩
  intro t
  simp only [guessTopic, guessTopicSpec, firstMatch, topicGroups, List.any_cons, List.any_nil,
    Bool.or_eq_true, Bool.or_false]
  split_ifs <;> first | rfl | tauto

/-! ## C7: missing or malformed file list -/

/-- C7 counterexample: the parsed manifest body `null` has no `files` field,
yet the extraction does not produce the empty list — the member access on
the null document throws, failing the run. -/
theorem C7_counterexample :
    rawFilesOf Json.null = Except.error "TypeError: cannot read properties of null" ∧
    (Except.error "TypeError: cannot read properties of null" : Except String (List Json)) ≠
      Except.ok [] :=
  ⟨rfl, by simp⟩

/-- C7 (amended): for every parsed manifest body other than the JSON null
document, an absent or non-sequence `files` field yields the empty file
list rather than an error; the null document instead throws a TypeError on
member access. -/
theorem C7_missing_files_amended (j : Json) (hnull : j ≠ Json.null)
    (habs : ∀ xs, jsonMember j "files" ≠ Except.ok (some (Json.arr xs))) :
    rawFilesOf j = Except.ok [] := by
  cases j with
  | null => exact absurd rfl hnull
  | obj fields =>
    rcases hl : lookupField fields "files" with _ | v
    · simp [rawFilesOf, jsonMember, hl]
    · cases v with
      | arr xs => exact absurd (by simp [jsonMember, hl]) (habs xs)
      | null => simp [rawFilesOf, jsonMember, hl]
      | bool b => simp [rawFilesOf, jsonMember, hl]
      | num q => simp [rawFilesOf, jsonMember, hl]
      | str s => simp [rawFilesOf, jsonMember, hl]
      | obj fs => simp [rawFilesOf, jsonMember, hl]
  | bool b => rfl
  | num q => rfl
  | str s => rfl
  | arr xs => rfl

theorem C7_witness : rawFilesOf (Json.obj [("version", Json.num 1)]) = Except.ok [] :=
  C7_missing_files_amended _ (fun h => Json.noConfusion h)
    (fun xs h => by
      rw [show jsonMember (Json.obj [("version", Json.num 1)]) "files" = .ok none from rfl] at h
      exact Option.noConfusion (Except.ok.inj h))

/-! ## C8: manifest fetch failure condition -/

/-- C8 counterexample: a successful response declaring a JSON content type
whose body is nevertheless not parseable JSON still fails the manifest
stage (the `resp.json()` parse throws), so the claimed "exactly when"
equivalence does not hold. -/
theorem C8_counterexample :
    isErr (manifestStage ⟨true, some "application/json", none⟩) = true ∧
    (⟨true, some "application/json", none⟩ : HttpResponse).ok = true ∧
    strIncludes ((⟨true, some "application/json", none⟩ : HttpResponse).contentType.getD "")
      "application/json" = true :=
  ⟨rfl, rfl, by decide⟩

/-- C8 (amended): the manifest stage fails exactly when the response is not
successful, or its declared content type does not include
`application/json`, or its body is not parseable JSON. -/
theorem C8_manifest_fetch_failure_amended (resp : HttpResponse) :
    isErr (manifestStage resp) =
      (!resp.ok || !strIncludes (resp.contentType.getD "") "application/json" ||
        resp.body.isNone) := by
  rcases resp with ⟨ok, ct, body⟩
  by_cases h : (!ok || !strIncludes (ct.getD "") "application/json") = true
  · simp only [manifestStage]
    rw [if_pos h]
    simp [isErr, h]
  · have h' : (!ok || !strIncludes (ct.getD "") "application/json") = false := by
      cases hh : (!ok || !strIncludes (ct.getD "") "application/json") with
      | true => exact absurd hh h
      | false => rfl
    simp only [manifestStage]
    rw [if_neg h]
    cases body <;> simp [isErr, h']

/-! ## C10: empty-input short-circuit -/

/-- C10: whenever the manifest parses and its extracted raw file list is
empty, the pipeline returns the empty node list without invoking the engine
(no bootstrap, view registration or query — the engine-invoked flag stays
false). -/
theorem C10_empty_input_short_circuit (origin baseUrl : String) (resp : HttpResponse)
    (eng : EngineModel) (now : JsNum) (manifest : Json)
    (hm : manifestStage resp = .ok manifest) (hf : rawFilesOf manifest = .ok []) :
    pipelineRun origin baseUrl resp eng now = (Except.ok [], false) := by
  simp [pipelineRun, hm, hf, List.mapM, List.mapM.loop, pure, Except.pure]

theorem C10_witness :
    pipelineRun "https://example.github.io" "/"
      ⟨true, some "application/json", some (Json.obj [("files", Json.arr [])])⟩
      ⟨Except.error "engine must not be reached", Except.error "engine must not be reached"⟩
      (JsNum.fin 0) = (Except.ok [], false) :=
  C10_empty_input_short_circuit _ _ _ _ _ (Json.obj [("files", Json.arr [])]) rfl rfl

/-! ## C2: string pass-through in the decoder -/

/-- C2 counterexample: a row whose title column is the empty string decodes
to a record whose title is `null`, not that same string — the `titleStr ||
null` fallback on line 139 maps the empty string to null. -/
theorem C2_counterexample :
    (decodeRow (JsNum.fin 0) ⟨.nullV, .nullV, .str "", .nullV, .nullV, .nullV⟩).map NewsNode.title
      = Except.ok none ∧ (none : Option String) ≠ some "" := by
  constructor
  · rfl
  · simp

/-- C2 (amended): `asString` passes every string-typed column value through
unchanged, and a string-typed title column decodes to that same string in
the output record when it is non-empty, the empty string decoding to null
instead. -/
theorem C2_string_passthrough_amended :
    (∀ s, asString (JsVal.str s) = s) ∧
    (∀ (now : JsNum) (r : RawRow) (node : NewsNode) (s : String), r.title = JsVal.str s →
      decodeRow now r = Except.ok node → node.title = if s = "" then none else some s) := by
  refine ⟨fun s => rfl, ?_⟩
  intro now r node s ht hdec
  rcases hm : msNumOf r.published_ms with e | m
  · simp [decodeRow, hm] at hdec
  · rcases m with _ | n
    · simp only [decodeRow, hm, ht] at hdec
      simp only [Option.map_none', Except.ok.injEq] at hdec
      rw [← hdec]
      simp [asString]
    · rcases hd : jsNewDate n with _ | t
      · simp [decodeRow, hm, Option.map_some', hd] at hdec
      · simp only [decodeRow, hm, ht, Option.map_some', hd, Except.ok.injEq] at hdec
        rw [← hdec]
        simp [asString]

theorem C2_witness : wnodeC2.title = some "hello" := by
  have htop : guessTopic "hello" = "other" := by decide
  have hne : (("hello" : String) = "") = False := by simp
  have hdec : decodeRow (JsNum.fin 0) wrowC2 = Except.ok wnodeC2 := by
    simp only [decodeRow, wrowC2, wnodeC2, msNumOf, isNullish, asString, Option.map_none']
    norm_num [jsMax, JsNum.sub, JsNum.div, htop, hne, Except.ok.injEq, NewsNode.mk.injEq]
  have h := C2_string_passthrough_amended.2 (JsNum.fin 0) wrowC2 wnodeC2 "hello" rfl hdec
  rw [h]
  simp

/-! ## C3: visual weight -/

theorem ratTrunc_intCast (t : Int) : ratTrunc (t : ℚ) = t := by
  simp [ratTrunc, Rat.num_intCast, Rat.den_intCast, Int.tdiv_one]

/-- C3: for every decoded record, `val` is exactly
`max(1, 10 - ageHours / 6)` with `ageHours` the hour difference between the
reference instant and the publication instant; a record with no publication
instant (age 999) gets `val = 1`, and a record whose publication instant
equals the reference instant gets `val = 10`. -/
theorem C3_visual_weight :
    (∀ (now : JsNum) (r : RawRow) (m : Option JsNum) (node : NewsNode),
      msNumOf r.published_ms = Except.ok m → decodeRow now r = Except.ok node →
      node.val = valSpec now (m.bind jsNewDate)) ∧
    (∀ (now : JsNum) (r : RawRow) (node : NewsNode),
      decodeRow now r = Except.ok node → node.published_at = none → node.val = JsNum.fin 1) ∧
    (∀ (t : Int) (r : RawRow) (node : NewsNode),
      msNumOf r.published_ms = Except.ok (some (JsNum.fin (t : ℚ))) →
      decodeRow (JsNum.fin (t : ℚ)) r = Except.ok node → node.val = JsNum.fin 10) := by
  refine ⟨?_, ?_, ?_⟩
  · intro now r m node hm hdec
    rcases m with _ | n
    · simp only [decodeRow, hm, Option.map_none', Except.ok.injEq] at hdec
      rw [← hdec]
      simp [valSpec, ageHoursSpec]
    · rcases hd : jsNewDate n with _ | t
      · simp [decodeRow, hm, Option.map_some', hd] at hdec
      · simp only [decodeRow, hm, Option.map_some', hd, Except.ok.injEq] at hdec
        rw [← hdec]
        simp [valSpec, ageHoursSpec, hd, jsGetTime]
  · intro now r node hdec hpub
    rcases hm : msNumOf r.published_ms with e | m
    · simp [decodeRow, hm] at hdec
    · rcases m with _ | n
      · simp only [decodeRow, hm, Option.map_none', Except.ok.injEq] at hdec
        rw [← hdec]
        norm_num [jsMax, JsNum.sub, JsNum.div]
      · rcases hd : jsNewDate n with _ | t
        · simp [decodeRow, hm, Option.map_some', hd] at hdec
        · simp only [decodeRow, hm, Option.map_some', hd, Except.ok.injEq] at hdec
          rw [← hdec] at hpub
          simp at hpub
  · intro t r node hm hdec
    by_cases hb : (-(8640000000000000 : ℚ) ≤ (t : ℚ) ∧ (t : ℚ) ≤ (8640000000000000 : ℚ))
    · have hd : jsNewDate (JsNum.fin (t : ℚ)) = some (ratTrunc (t : ℚ)) := by
        simp [jsNewDate, hb]
      simp only [decodeRow, hm, Option.map_some', hd, Except.ok.injEq] at hdec
      rw [← hdec]
      norm_num [jsGetTime, ratTrunc_intCast, jsMax, JsNum.sub, JsNum.div]
    · have hd : jsNewDate (JsNum.fin (t : ℚ)) = none := by
        simp only [jsNewDate, if_neg hb]
      simp [decodeRow, hm, Option.map_some', hd] at hdec

theorem C3_witness : wnodeC3.val = JsNum.fin 10 := by
  have hcast : ((0 : Int) : ℚ) = 0 := by norm_num
  have hm : msNumOf wrowC3.published_ms = Except.ok (some (JsNum.fin ((0 : Int) : ℚ))) := by
    rw [hcast]; rfl
  have hd : jsNewDate (JsNum.fin 0) = some 0 := by
    norm_num [jsNewDate, ratTrunc]
  have hm0 : msNumOf (JsVal.num (JsNum.fin 0)) = Except.ok (some (JsNum.fin 0)) := rfl
  have hdec : decodeRow (JsNum.fin ((0 : Int) : ℚ)) wrowC3 = Except.ok wnodeC3 := by
    rw [hcast]
    simp only [decodeRow, wrowC3, wnodeC3, hm0, Option.map_some', hd, Except.ok.injEq,
      NewsNode.mk.injEq, isNullish, asString]
    norm_num [jsGetTime, jsMax, JsNum.sub, JsNum.div, guessTopic, jsToLowerCase, strIncludes,
      containsSeg]
  exact C3_visual_weight.2.2 0 wrowC3 wnodeC3 hm hdec

/-! ## URL resolution lemmas -/

theorem strExt (a b : String) (h : a.data = b.data) : a = b := by
  cases a; cases b; exact congrArg String.mk h

theorem schemeChar_ne_colon {c : Char} (h : isSchemeChar c = true) :
    (decide (c = ':')) = false := by
  by_cases hc : c = ':'
  · subst hc; exact absurd h (by decide)
  · simp [hc]

theorem alpha_ne_colon {c : Char} (h : c.isAlpha = true) : (decide (c = ':')) = false := by
  by_cases hc : c = ':'
  · subst hc; exact absurd h (by decide)
  · simp [hc]

theorem alpha_ne_slash {c : Char} (h : c.isAlpha = true) : c ≠ '/' := by
  intro hc; subst hc; exact absurd h (by decide)

theorem validScheme_no_colon {sch : List Char} (h : validSchemeChars sch = true) :
    ∀ x ∈ sch, (decide (x = ':')) = false := by
  cases sch with
  | nil => intro x hx; simp at hx
  | cons c cs =>
    simp only [validSchemeChars, Bool.and_eq_true, List.all_eq_true] at h
    intro x hx
    rcases List.mem_cons.mp hx with h1 | h2
    · subst h1; exact alpha_ne_colon h.1
    · exact schemeChar_ne_colon (h.2 x h2)

theorem validScheme_head_alpha {sch : List Char} (h : validSchemeChars sch = true) :
    ∃ c cs, sch = c :: cs ∧ c.isAlpha = true := by
  cases sch with
  | nil => simp [validSchemeChars] at h
  | cons c cs =>
    simp only [validSchemeChars, Bool.and_eq_true] at h
    exact ⟨c, cs, rfl, h.1⟩

theorem hasUrlScheme_mk (sch rest : List Char) (h : validSchemeChars sch = true) :
    hasUrlScheme (String.mk (sch ++ ':' :: rest)) = true := by
  have hs : splitFirst ':' (sch ++ ':' :: rest) = some (sch, rest) :=
    splitFirstBy_append _ sch rest ':' (validScheme_no_colon h) (by simp)
  unfold hasUrlScheme
  rw [show (String.mk (sch ++ ':' :: rest)).data = sch ++ ':' :: rest from rfl, hs]
  exact h

theorem hasUrlScheme_shape {u : String} (h : hasUrlScheme u = true) :
    ∃ sch rest, u.data = sch ++ ':' :: rest ∧ validSchemeChars sch = true := by
  unfold hasUrlScheme at h
  rcases hs : splitFirst ':' u.data with _ | ⟨sch, rest⟩
  · rw [hs] at h; simp at h
  · rw [hs] at h
    obtain ⟨_, c, hcp, hct⟩ := splitFirstBy_eq_some _ _ _ _ hs
    have hc : c = ':' := by simpa using hcp
    subst hc
    exact ⟨sch, rest, hct, h⟩

theorem startsWith_slash_of_dslash {u : String} (h : strStartsWith u "//" = true) :
    strStartsWith u "/" = true := by
  rcases hu : u.data with _ | ⟨c, t⟩
  · rw [strStartsWith, hu] at h
    rw [show ("//" : String).data = ['/', '/'] from rfl] at h
    simp [List.isPrefixOf] at h
  · rw [strStartsWith, hu] at h
    rw [show ("//" : String).data = ['/', '/'] from rfl] at h
    rw [strStartsWith, hu, show ("/" : String).data = ['/'] from rfl]
    simp [List.isPrefixOf] at h ⊢
    exact h.1

theorem startsSlash_not_http {u : String} (h : strStartsWith u "/" = true) :
    isHttpAbsolute u = false := by
  rcases hu : u.data with _ | ⟨c, t⟩
  · rw [strStartsWith, hu, show ("/" : String).data = ['/'] from rfl] at h
    simp [List.isPrefixOf] at h
  · rw [strStartsWith, hu, show ("/" : String).data = ['/'] from rfl] at h
    simp [List.isPrefixOf] at h
    subst h
    unfold isHttpAbsolute
    rw [hu]
    rw [show "http://".data = ['h', 't', 't', 'p', ':', '/', '/'] from rfl,
      show "https://".data = ['h', 't', 't', 'p', 's', ':', '/', '/'] from rfl]
    simp [List.isPrefixOf, show Char.toLower '/' = '/' from by decide]

theorem resolve_of_hasScheme (o b w : String) (h : hasUrlScheme w = true) :
    resolveFileUrl o b w = w := by
  obtain ⟨sch, rest, hdata, hv⟩ := hasUrlScheme_shape h
  obtain ⟨c, cs, hsch, hca⟩ := validScheme_head_alpha hv
  subst hsch
  have hne : w ≠ "" := by
    intro he
    have h0 : ([] : List Char) = (c :: cs) ++ ':' :: rest := by
      rw [← hdata, he]
    simp at h0
  have hss : strStartsWith w "/" = false := by
    rw [strStartsWith, hdata, show ("/" : String).data = ['/'] from rfl]
    have hcs : ('/' == c) = false := beq_eq_false_iff_ne.mpr (Ne.symm (alpha_ne_slash hca))
    simp [List.isPrefixOf, hcs]
  by_cases hh : isHttpAbsolute w = true
  · unfold resolveFileUrl
    rw [if_neg hne, if_pos hh]
  · unfold resolveFileUrl
    rw [if_neg hne, if_neg hh, if_neg (by simp [hss])]
    unfold newURL
    rw [if_pos h]

theorem parseBase_valid {s : String} {sch auth path : List Char}
    (h : parseBase s = some (sch, auth, path)) : validSchemeChars sch = true := by
  unfold parseBase at h
  split at h
  · exact absurd h (by simp)
  · rename_i sch' rest hs
    split at h
    · rename_i hv
      split at h
      · rename_i rest2 heq
        split at h
        · simp at h
          rw [← h.1]
          exact hv
        · simp at h
          rw [← h.1]
          exact hv
      · exact absurd h (by simp)
    · exact absurd h (by simp)

theorem mapLower_http : List.map Char.toLower "http://".data = "http://".data := by decide

theorem mapLower_https : List.map Char.toLower "https://".data = "https://".data := by decide

theorem isHttpAbsolute_http_prefix (s : String) :
    isHttpAbsolute ("http://" ++ s) = true := by
  unfold isHttpAbsolute
  rw [String.data_append, List.map_append, mapLower_http]
  have h := List.isPrefixOf_iff_prefix.mpr (List.prefix_append "http://".data (List.map Char.toLower s.data))
  simp [h]

theorem isHttpAbsolute_https_prefix (s : String) :
    isHttpAbsolute ("https://" ++ s) = true := by
  unfold isHttpAbsolute
  rw [String.data_append, List.map_append, mapLower_https]
  have h := List.isPrefixOf_iff_prefix.mpr (List.prefix_append "https://".data (List.map Char.toLower s.data))
  simp [h]

theorem http_append_ne_empty (p s : String) (hp : p.data ≠ []) : (p ++ s) ≠ "" := by
  intro h
  have hd : (p ++ s).data = ("" : String).data := by rw [h]
  rw [String.data_append] at hd
  rw [show ("" : String).data = [] from rfl] at hd
  exact hp (List.append_eq_nil.mp hd).1

theorem http_prefix_forms (origin u : String)
    (ho : (∃ h1, origin = "http://" ++ h1) ∨ (∃ h1, origin = "https://" ++ h1)) :
    isHttpAbsolute (origin ++ u) = true ∧ origin ++ u ≠ "" := by
  rcases ho with ⟨h1, rfl⟩ | ⟨h1, rfl⟩
  · constructor
    · rw [String.append_assoc]
      exact isHttpAbsolute_http_prefix _
    · rw [String.append_assoc]
      exact http_append_ne_empty _ _ (by decide)
  · constructor
    · rw [String.append_assoc]
      exact isHttpAbsolute_https_prefix _
    · rw [String.append_assoc]
      exact http_append_ne_empty _ _ (by decide)

/-! ## C6: idempotence of normalization -/

/-- C6: for every string input, given an http(s) current origin, resolving a
resolved manifest entry is a no-op — `resolve (resolve x) = resolve x`; in
particular an already-absolute location passes through unchanged. -/
theorem C6_resolution_idempotent (origin baseUrl u : String)
    (ho : (∃ h1, origin = "http://" ++ h1) ∨ (∃ h1, origin = "https://" ++ h1)) :
    resolveFileUrl origin baseUrl (resolveFileUrl origin baseUrl u) =
      resolveFileUrl origin baseUrl u := by
  by_cases h0 : u = ""
  · subst h0; simp [resolveFileUrl]
  by_cases h1 : isHttpAbsolute u = true
  · have hu : resolveFileUrl origin baseUrl u = u := by simp [resolveFileUrl, h0, h1]
    rw [hu]; exact hu
  by_cases h2 : strStartsWith u "/" = true
  · have hu : resolveFileUrl origin baseUrl u = origin ++ u := by
      simp [resolveFileUrl, h0, h1, h2]
    obtain ⟨habs, hne⟩ := http_prefix_forms origin u ho
    rw [hu]
    simp [resolveFileUrl, hne, habs]
  · set base : String := newURL baseUrl origin with hbase
    have hu : resolveFileUrl origin baseUrl u = newURL u base := by
      simp [resolveFileUrl, h0, h1, h2]
    by_cases h3 : hasUrlScheme u = true
    · have hnu : newURL u base = u := by simp [newURL, h3]
      have hfix : resolveFileUrl origin baseUrl u = u := hu.trans hnu
      rw [hfix]; exact hfix
    · rcases hp : parseBase base with _ | ⟨sch, auth, path⟩
      · have hnu : newURL u base = u := by simp [newURL, h3, hp]
        have hfix : resolveFileUrl origin baseUrl u = u := hu.trans hnu
        rw [hfix]; exact hfix
      · have hv : validSchemeChars sch = true := parseBase_valid hp
        have h4 : strStartsWith u "//" = false := by
          cases h4 : strStartsWith u "//" with
          | false => rfl
          | true => exact absurd (startsWith_slash_of_dslash h4) (by simp [h2])
        have hser : newURL u base =
            String.mk (sch ++ ':' :: '/' :: '/' :: (auth ++ (dropLastSeg path ++ u.data))) := by
          simp [newURL, h3, hp, h4, h2, h0]
        rw [hu, hser]
        exact resolve_of_hasScheme _ _ _
          (hasUrlScheme_mk sch ('/' :: '/' :: (auth ++ (dropLastSeg path ++ u.data))) hv)

theorem C6_witness :
    resolveFileUrl "https://u.github.io" "/app/"
        (resolveFileUrl "https://u.github.io" "/app/" "data/a.parquet") =
      resolveFileUrl "https://u.github.io" "/app/" "data/a.parquet" :=
  C6_resolution_idempotent "https://u.github.io" "/app/" "data/a.parquet"
    (Or.inr ⟨"u.github.io", rfl⟩)

/-! ## C5: manifest entry normalization -/

theorem parseBase_https (h : String) (hh : ∀ c ∈ h.data, ¬(c = '/')) :
    parseBase ("https://" ++ h) = some ("https".data, h.data, ['/']) := by
  have hsplit : splitFirst ':' (("https://" ++ h).data) =
      some ("https".data, '/' :: '/' :: h.data) := by
    rw [show ("https://" ++ h).data = "https".data ++ ':' :: ('/' :: '/' :: h.data) from by
      rw [String.data_append,
        show ("https://" : String).data = "https".data ++ [':', '/', '/'] from by decide,
        List.append_assoc]
      simp]
    exact splitFirstBy_append _ _ _ _ (by decide) (by decide)
  have hnone : splitFirst '/' h.data = none :=
    splitFirstBy_none _ _ (fun x hx => by simp [hh x hx])
  unfold parseBase
  rw [hsplit]
  simp [hnone, show validSchemeChars "https".data = true from by decide]

theorem base_https_app (h : String) (hh : ∀ c ∈ h.data, ¬(c = '/')) :
    newURL "/app/" ("https://" ++ h) =
      String.mk ("https".data ++ ':' :: '/' :: '/' :: (h.data ++ "/app/".data)) := by
  unfold newURL
  rw [if_neg (by decide), parseBase_https h hh]
  simp [show strStartsWith "/app/" "//" = false from by decide,
    show strStartsWith "/app/" "/" = true from by decide]

theorem parseBase_serialized (h : String) (hh : ∀ c ∈ h.data, ¬(c = '/')) :
    parseBase (String.mk ("https".data ++ ':' :: '/' :: '/' :: (h.data ++ "/app/".data))) =
      some ("https".data, h.data, '/' :: "app/".data) := by
  have hsplit : splitFirst ':' ("https".data ++ ':' :: '/' :: '/' :: (h.data ++ "/app/".data)) =
      some ("https".data, '/' :: '/' :: (h.data ++ "/app/".data)) :=
    splitFirstBy_append _ _ _ _ (by decide) (by decide)
  have hsp2 : splitFirst '/' (h.data ++ "/app/".data) = some (h.data, "app/".data) := by
    rw [show h.data ++ "/app/".data = h.data ++ '/' :: "app/".data from rfl]
    exact splitFirstBy_append _ _ _ _ (fun x hx => by simp [hh x hx]) (by decide)
  unfold parseBase
  rw [show (String.mk ("https".data ++ ':' :: '/' :: '/' :: (h.data ++ "/app/".data))).data =
    "https".data ++ ':' :: '/' :: '/' :: (h.data ++ "/app/".data) from rfl, hsplit]
  simp [hsp2, show validSchemeChars "https".data = true from by decide]

/-- C5: an absolute http(s) location passes through `resolveFileUrl`
unchanged; a root-relative path resolves to the current origin plus that
path; and the relative entry `"data/a.parquet"` under base path `"/app/"`
resolves to origin + `"/app/data/a.parquet"` for every slash-free http(s)
origin host. -/
theorem C5_manifest_entry_normalization :
    (∀ origin baseUrl u, isHttpAbsolute u = true → resolveFileUrl origin baseUrl u = u) ∧
    (∀ origin baseUrl u, u ≠ "" → strStartsWith u "/" = true →
      resolveFileUrl origin baseUrl u = origin ++ u) ∧
    (∀ h : String, (∀ c ∈ h.data, ¬(c = '/')) →
      resolveFileUrl ("https://" ++ h) "/app/" "data/a.parquet" =
        ("https://" ++ h) ++ "/app/data/a.parquet") := by
  refine ⟨?_, ?_, ?_⟩
  · intro origin baseUrl u habs
    by_cases h0 : u = ""
    · subst h0; rfl
    · simp [resolveFileUrl, h0, habs]
  · intro origin baseUrl u h0 hs
    simp [resolveFileUrl, h0, startsSlash_not_http hs, hs]
  · intro h hh
    have e0 : resolveFileUrl ("https://" ++ h) "/app/" "data/a.parquet" =
        newURL "data/a.parquet" (newURL "/app/" ("https://" ++ h)) := by
      simp [resolveFileUrl, show isHttpAbsolute "data/a.parquet" = false from by decide,
        show strStartsWith "data/a.parquet" "/" = false from by decide]
    rw [e0, base_https_app h hh]
    unfold newURL
    rw [if_neg (by decide), parseBase_serialized h hh]
    have hne : ¬("data/a.parquet" = ("" : String)) := by decide
    simp only [show strStartsWith "data/a.parquet" "//" = false from by decide,
      show strStartsWith "data/a.parquet" "/" = false from by decide,
      show dropLastSeg ('/' :: "app/".data) = '/' :: "app/".data from by decide,
      Bool.false_eq_true, if_false, hne, ite_false]
    apply strExt
    rw [String.data_append, String.data_append,
      show ("https://" : String).data = "https".data ++ [':', '/', '/'] from by decide]
    simp [List.append_assoc]

theorem C5_witness :
    resolveFileUrl "https://u.github.io" "/app/" "https://cdn.example/d.parquet" =
      "https://cdn.example/d.parquet" ∧
    resolveFileUrl "https://u.github.io" "/app/" "/parquet/x.parquet" =
      "https://u.github.io" ++ "/parquet/x.parquet" ∧
    resolveFileUrl ("https://" ++ "u.github.io") "/app/" "data/a.parquet" =
      ("https://" ++ "u.github.io") ++ "/app/data/a.parquet" :=
  ⟨C5_manifest_entry_normalization.1 "https://u.github.io" "/app/" "https://cdn.example/d.parquet"
      (by decide),
    C5_manifest_entry_normalization.2.1 "https://u.github.io" "/app/" "/parquet/x.parquet"
      (by decide) (by decide),
    C5_manifest_entry_normalization.2.2 "u.github.io" (by decide)⟩

/-! ## C1: decoder totality -/

theorem asString_of_nullish {v : JsVal} (h : isNullish v = true) : asString v = "" := by
  cases v <;> first | rfl | simp [isNullish] at h

/-- C1 counterexample: a row whose timestamp column holds the native number
1e16 — outside the representable Date range — makes the decoder throw: the
Invalid Date reaches `toISOString`, which raises a RangeError, aborting the
run, so decoding is not total as claimed. -/
theorem C1_counterexample :
    isErr (decodeRow (JsNum.fin 0)
      ⟨.nullV, .nullV, .nullV, .num (JsNum.fin 10000000000000000), .nullV, .nullV⟩) = true := by
  have hd : jsNewDate (JsNum.fin 10000000000000000) = none := by
    simp only [jsNewDate]
    rw [if_neg]
    intro hc
    exact absurd hc.2 (by norm_num)
  simp [decodeRow, msNumOf, Option.map_some', hd, isErr]

/-- C1 (amended): decoding never throws provided the coerced timestamp value
is absent or a representable Date instant (finite, magnitude at most
8.64e15); within that domain id and url are always coerced to strings, with
null or undefined coerced to the empty string, the timestamp column is
accepted both as a native number and as a wide (bigint) integer, a string or
object column is coerced with `Number` and kept only when finite (treated as
absent otherwise), and a record with an absent timestamp is retained with a
null publication instant.  Outside that domain the `toISOString` conversion
throws (see the counterexample). -/
theorem C1_row_decoder_total_amended :
    (∀ (now : JsNum) (r : RawRow) (m : Option JsNum),
      msNumOf r.published_ms = Except.ok m →
      (∀ n, m = some n → (jsNewDate n).isSome = true) →
      ∃ node, decodeRow now r = Except.ok node ∧
        node.id = asString r.id ∧ node.url = asString r.url ∧
        (isNullish r.id = true → node.id = "") ∧
        (isNullish r.url = true → node.url = "") ∧
        (m = none → node.published_at = none)) ∧
    (∀ n, msNumOf (JsVal.num n) = Except.ok (some n)) ∧
    (∀ i, msNumOf (JsVal.bigintV i) = Except.ok (some (numberOfBigInt i))) ∧
    (∀ s, msNumOf (JsVal.str s) =
      Except.ok (if (stringToNum s).isFinite = true then some (stringToNum s) else none)) ∧
    (∀ ts n, msNumOf (JsVal.obj ts (some n)) =
      Except.ok (if n.isFinite = true then some n else none)) := by
  refine ⟨?_, fun n => rfl, fun i => rfl, fun s => rfl, fun ts n => rfl⟩
  intro now r m hm hrep
  rcases m with _ | n
  · have hdec : decodeRow now r = Except.ok
        { id := asString r.id, url := asString r.url,
          title := if asString r.title = "" then none else some (asString r.title),
          published_at := none,
          domain := if isNullish r.domain = true then none else some (asString r.domain),
          language := if isNullish r.language = true then none else some (asString r.language),
          topic := guessTopic (asString r.title),
          val := jsMax (JsNum.fin 1)
            (JsNum.sub (JsNum.fin 10) (JsNum.div (JsNum.fin 999) (JsNum.fin 6))) } := by
      simp [decodeRow, hm, Option.map_none']
    exact ⟨_, hdec, rfl, rfl, fun h => asString_of_nullish h, fun h => asString_of_nullish h,
      fun _ => rfl⟩
  · have hn := hrep n rfl
    rcases hs : jsNewDate n with _ | t
    · rw [hs] at hn; simp at hn
    · have hdec : decodeRow now r = Except.ok
          { id := asString r.id, url := asString r.url,
            title := if asString r.title = "" then none else some (asString r.title),
            published_at := some (toISOStringFn t),
            domain := if isNullish r.domain = true then none else some (asString r.domain),
            language := if isNullish r.language = true then none else some (asString r.language),
            topic := guessTopic (asString r.title),
            val := jsMax (JsNum.fin 1) (JsNum.sub (JsNum.fin 10)
              (JsNum.div (JsNum.div (JsNum.sub now (jsGetTime (some t))) (JsNum.fin 3600000))
                (JsNum.fin 6))) } := by
        simp [decodeRow, hm, Option.map_some', hs]
      exact ⟨_, hdec, rfl, rfl, fun h => asString_of_nullish h, fun h => asString_of_nullish h,
        fun h => by simp at h⟩

theorem C1_witness :
    ∃ node, decodeRow (JsNum.fin 0) wrowC1 = Except.ok node ∧
      node.id = asString wrowC1.id ∧ node.url = asString wrowC1.url ∧
      (isNullish wrowC1.id = true → node.id = "") ∧
      (isNullish wrowC1.url = true → node.url = "") ∧
      (some (JsNum.fin 1700000000000) = none → node.published_at = none) := by
  have hlt : (1700000000000 : Int).natAbs < 2 ^ 1024 := by
    rw [show (1700000000000 : Int).natAbs = 1700000000000 from rfl]
    exact Nat.lt_of_lt_of_le (by norm_num)
      (Nat.pow_le_pow_right (by norm_num) (by norm_num : 64 ≤ 1024))
  have hb : numberOfBigInt 1700000000000 = JsNum.fin 1700000000000 := by
    unfold numberOfBigInt
    rw [if_pos hlt]
    norm_num
  apply C1_row_decoder_total_amended.1 (JsNum.fin 0) wrowC1 (some (JsNum.fin 1700000000000))
  · rw [show wrowC1.published_ms = JsVal.bigintV 1700000000000 from rfl,
      show msNumOf (JsVal.bigintV 1700000000000) =
        Except.ok (some (numberOfBigInt 1700000000000)) from rfl, hb]
  · intro n hn
    rw [← Option.some.inj hn]
    simp only [jsNewDate]
    rw [if_pos (by norm_num)]
    rfl
